import Mathlib

/-!
Shallow embedding of the serverkit extraction worker (src/worker.py) and the
properties claimed of it.  Each Python function that the claims touch is
translated into an executable Lean definition; filesystem and network effects
are made explicit (state records and outcome oracles).
-/

namespace ServerKit

/-! ## Sanitizer (`_sanitize_filename`, src/worker.py:88-93)

The Python code is
  name = re.sub(r'[^a-zA-Z0-9\-\.]+', '-', name)
  name = re.sub(r'-+', '-', name)
  name = name.strip('-')
  if not name: return 'untitled'
  return name.lower()

`allowedChar` is the character class `[a-zA-Z0-9\-\.]` (ASCII, as in the
regex).  `replaceRuns` replaces every maximal run of disallowed characters by
a single `'-'` (the effect of the first `re.sub` with the `+` quantifier); it
emits the dash when it reaches the last character of a run, which yields the
same string.  `collapseDashes` replaces every maximal run of dashes by a
single dash (the second `re.sub`), keeping the last dash of each run.
`stripDashes` is `str.strip('-')`.  The final `str.lower()` is `Char.toLower`
per character: every character surviving the first three steps is ASCII, where
Python's `str.lower` and `Char.toLower` agree. -/

def allowedChar (c : Char) : Bool :=
  c.isAlpha || c.isDigit || c == '-' || c == '.'

def replaceRuns : List Char → List Char
  | [] => []
  | [c] => if allowedChar c then [c] else ['-']
  | c :: d :: rest =>
    if allowedChar c then c :: replaceRuns (d :: rest)
    else if allowedChar d then '-' :: replaceRuns (d :: rest)
    else replaceRuns (d :: rest)

def collapseDashes : List Char → List Char
  | [] => []
  | [c] => [c]
  | c :: d :: rest =>
    if c = '-' ∧ d = '-' then collapseDashes (d :: rest)
    else c :: collapseDashes (d :: rest)

def stripDashes (l : List Char) : List Char :=
  ((l.dropWhile (· == '-')).reverse.dropWhile (· == '-')).reverse

def sanitize_filename (name : String) : String :=
  let s1 := replaceRuns name.data
  let s2 := collapseDashes s1
  let s3 := stripDashes s2
  if s3.isEmpty then "untitled" else String.mk (s3.map Char.toLower)

/-! ## URL path and basename (used by `_download_media`, src/worker.py:175)

`urlparse_path` models `urllib.parse.urlparse(url).path` for the URLs the
scraper sees: everything after the `scheme://netloc` part up to the query
(`?`) or fragment (`#`); for a string with no `://` the whole string up to
`?`/`#` is the path.  `basename` is `os.path.basename`: the part after the
last `/`. -/

def dropThroughSchemeSep : List Char → Option (List Char)
  | ':' :: '/' :: '/' :: rest => some rest
  | _ :: rest => dropThroughSchemeSep rest
  | [] => none

def urlparse_path (url : String) : String :=
  match dropThroughSchemeSep url.data with
  | some rest =>
    String.mk ((rest.dropWhile (· != '/')).takeWhile (fun c => c != '?' && c != '#'))
  | none =>
    String.mk (url.data.takeWhile (fun c => c != '?' && c != '#'))

def basename (p : String) : String :=
  String.mk ((p.data.reverse.takeWhile (· != '/')).reverse)

/-! ## Media cache (`_download_media`, src/worker.py:173-182)

  filename = f"{self._sanitize_filename(module_name)}_{os.path.basename(urlparse(url).path)}"
  local_path = self.output_dir / self.config.MEDIA_DIR / filename
  if not local_path.exists():
      resp = requests.get(url, stream=True)
      if resp.status_code == 200:
          with open(local_path, 'wb') as f: f.write(resp.content)
  return f"{self.config.MEDIA_DIR}/{filename}"
  except: return None

The per-job media directory is the `files` field of `MediaState`; every
network request issued by `requests.get` is appended to `fetches`.  The
outcome of a request is an oracle `fetch : String → FetchResult`:
`success` is status 200, `httpFailure` any other status, `exn` a raised
exception (connection error etc.).  `Config.MEDIA_DIR` is `"media"`. -/

inductive FetchResult
  | success
  | httpFailure
  | exn
deriving DecidableEq

structure MediaState where
  files : List String
  fetches : List String
deriving DecidableEq

def media_filename (url module_name : String) : String :=
  sanitize_filename module_name ++ "_" ++ basename (urlparse_path url)

def download_media (fetch : String → FetchResult) (url module_name : String)
    (st : MediaState) : Option String × MediaState :=
  let filename := media_filename url module_name
  if st.files.contains filename then
    (some ("media/" ++ filename), st)
  else
    match fetch url with
    | .success => (some ("media/" ++ filename), ⟨filename :: st.files, st.fetches ++ [url]⟩)
    | .httpFailure => (some ("media/" ++ filename), ⟨st.files, st.fetches ++ [url]⟩)
    | .exn => (none, ⟨st.files, st.fetches ++ [url]⟩)

/-! ## Data model (`_build_course_structure`, src/worker.py:300-340)

Python dictionaries are modelled by structures; a `.get` with no default is an
`Option` field.  A module's `files` list is stored in
`metadata['resources']` as a JSON-encoded string in the source
(`json.loads(... .get('resources', '[]'))`); we model the already-decoded
value, with `none` standing for an absent key (absent decodes to `[]`). -/

structure FileInfo where
  file_id : Option String
  name : Option String
  title : Option String
deriving DecidableEq

structure Module where
  id : String
  name : String
  files : List FileInfo
deriving DecidableEq

structure Section where
  name : String
  modules : List Module
deriving DecidableEq

structure CourseStructure where
  name : String
  modules : List Section
deriving DecidableEq

structure Metadata where
  title : Option String
  resources : Option (List FileInfo)
deriving DecidableEq

structure CourseDict where
  id : String
  name : String
  unitType : Option String
  metadata : Option Metadata
deriving DecidableEq

structure SetChild where
  course : CourseDict
deriving DecidableEq

structure ChildNode where
  course : Option CourseDict
  children : List SetChild
deriving DecidableEq

structure CourseDoc where
  course : Option CourseDict
  children : List ChildNode
  sets : Option (List Section)
deriving DecidableEq

/-- `d.get('metadata', {}).get('title', fallback)` -/
def metaTitleOr (md : Option Metadata) (fallback : String) : String :=
  (md.bind Metadata.title).getD fallback

/-- `json.loads(d.get('metadata', {}).get('resources', '[]'))`, decoded. -/
def metaFiles (md : Option Metadata) : List FileInfo :=
  (md.bind Metadata.resources).getD []

/-- The module record appended by `_build_course_structure` for one
`m_data = m_child['course']` dictionary (src/worker.py:317-321, 330-334). -/
def mkModule (cd : CourseDict) : Module :=
  { id := cd.id
    name := metaTitleOr cd.metadata cd.name
    files := metaFiles cd.metadata }

/-- `child.get('course', {}).get('unitType')` -/
def childUnitType (c : ChildNode) : Option String :=
  c.course.bind CourseDict.unitType

/-- Python truthiness of `course_data.get('sets')` (absent and `[]` are falsy). -/
def truthySets : Option (List Section) → Bool
  | none => false
  | some l => !l.isEmpty

/-- The `for child in children` loop of `_build_course_structure`
(src/worker.py:310-335), appending one section per recognised child in
source order. -/
def buildChildren : List ChildNode → List Section
  | [] => []
  | child :: rest =>
    match child.course with
    | some cd =>
      if cd.unitType = some "set" then
        { name := metaTitleOr cd.metadata cd.name
          modules := child.children.map (fun mc => mkModule mc.course) } :: buildChildren rest
      else if cd.unitType = some "module" then
        { name := "General", modules := [mkModule cd] } :: buildChildren rest
      else buildChildren rest
    | none => buildChildren rest

/-- `_build_course_structure` (src/worker.py:300-340). -/
def build_course_structure (d : CourseDoc) : CourseStructure :=
  if d.children.isEmpty && truthySets d.sets then
    { name := (d.course.map CourseDict.name).getD "Course"
      modules := d.sets.getD [] }
  else
    { name := match d.course with
              | some cd => metaTitleOr cd.metadata cd.name
              | none => "Course"
      modules := buildChildren d.children }

/-- Per-child section mapping stated by the spec (§4.2): a `"set"` child
becomes a Section whose children become its Modules, a `"module"` child
becomes a synthetic single-module Section named `"General"`, anything else is
skipped.  Compared against `buildChildren` in the C4 theorem. -/
def childToSection (child : ChildNode) : Option Section :=
  match child.course with
  | none => none
  | some cd =>
    if cd.unitType = some "set" then
      some { name := metaTitleOr cd.metadata cd.name
             modules := child.children.map (fun mc => mkModule mc.course) }
    else if cd.unitType = some "module" then
      some { name := "General", modules := [mkModule cd] }
    else none

/-! ## Site generator navigation (`_generate_navigation`, src/worker.py:286-298)

  is_nested = '/' in current_page and current_page != 'index.html'
  root_link = '../index.html' if is_nested else 'index.html'
  ...
  m_fname = f"{sanitize(section['name'])}/{sanitize(module['name'])}.html"
  link = f"../{m_fname}" if is_nested else m_fname -/

def nav_is_nested (current_page : String) : Bool :=
  current_page.data.contains '/' && current_page != "index.html"

def nav_root_link (current_page : String) : String :=
  if nav_is_nested current_page then "../index.html" else "index.html"

def nav_module_link (current_page m_fname : String) : String :=
  if nav_is_nested current_page then "../" ++ m_fname else m_fname

/-- The module page path `f"{sanitize(section['name'])}/{sanitize(module['name'])}.html"`
(src/worker.py:260 and 294). -/
def module_page_path (secName modName : String) : String :=
  sanitize_filename secName ++ "/" ++ sanitize_filename modName ++ ".html"

/-! ## Python `or` on optional strings -/

/-- `a or b` where `a` is `d.get(key)`: `None` and `""` are falsy. -/
def pyOrStr (a : Option String) (b : String) : String :=
  match a with
  | some s => if s = "" then b else s
  | none => b

/-- Python truthiness of an optional string. -/
def pyTruthy : Option String → Bool
  | none => false
  | some s => s != ""

/-! ## File downloader (`_download_all_files`, src/worker.py:201-235)

Per file reference (after the `if not file_info.get("file_id"): continue`
guard):

  file_name = sanitize(name or title or f"file_{file_id}")
  if '.' not in file_name: file_name += ".bin"
  output_path = files_dir / section_name / module_name / file_name
  try:
      resp = page.request.get(api_url)                # signed-URL step
      download_url = None
      if resp.status == 200:
          ... download_url = jt.get('url') or jt.get('download_url')  (or resp.text())
      if download_url:
          file_resp = page.request.get(download_url)  # byte-fetch step
          if file_resp.status == 200:
              write; log(f"Downloaded: {file_name}")
  except Exception as e:
      log(f"Failed to download {file_name}: {e}")

`StepResult` is the outcome of one network call: `raise msg` a raised
exception, `ret a` a returned response.  For the signed-URL step the response
is its status and the download URL the code extracts when the status is 200
(`none` models both a missing/empty URL and a JSON body without one; the
`resp.text()` fallback is folded into the same option).  `download_one_file`
returns whether the file was downloaded together with the log entries the
attempt appends, in order. -/

inductive StepResult (α : Type)
  | raise (msg : String)
  | ret (a : α)
deriving DecidableEq

def download_one_file (signed : StepResult (Nat × Option String))
    (fetchBytes : StepResult Nat) (file_name : String) : Bool × List String :=
  match signed with
  | .raise e => (false, ["Failed to download " ++ file_name ++ ": " ++ e])
  | .ret (status, payload) =>
    let download_url : Option String := if status = 200 then payload else none
    if pyTruthy download_url then
      match fetchBytes with
      | .raise e => (false, ["Failed to download " ++ file_name ++ ": " ++ e])
      | .ret s2 => if s2 = 200 then (true, ["Downloaded: " ++ file_name]) else (false, [])
    else (false, [])

/-- The filename the downloader stores a file under
(src/worker.py:205-208): `sanitize(name or title or f"file_{file_id}")`,
with `".bin"` appended when it contains no `'.'`. -/
def downloader_fname (f : FileInfo) : String :=
  let n := sanitize_filename (pyOrStr f.name (pyOrStr f.title ("file_" ++ f.file_id.getD "")))
  if n.data.contains '.' then n else n ++ ".bin"

/-- Relative path (from the output root) the downloader writes to:
`downloads/<section-slug>/<module-slug>/<file name>` (src/worker.py:186,198,210). -/
def stored_relpath (secName modName : String) (f : FileInfo) : String :=
  "downloads/" ++ sanitize_filename secName ++ "/" ++ sanitize_filename modName ++ "/"
    ++ downloader_fname f

/-- The filename rendered in a module page's attachment list
(src/worker.py:273): `sanitize(f.get('name') or 'file')`. -/
def link_fname (f : FileInfo) : String :=
  sanitize_filename (pyOrStr f.name "file")

/-- The attachment link href on a module page (src/worker.py:274):
`f"../downloads/{sanitize(section['name'])}/{sanitize(module['name'])}/{fname}"`. -/
def attachment_href (secName modName : String) (f : FileInfo) : String :=
  "../downloads/" ++ sanitize_filename secName ++ "/" ++ sanitize_filename modName ++ "/"
    ++ link_fname f

/-! ## Module page writes (`_generate_html_website`, src/worker.py:257-284)

The generator walks sections and modules in structure order and writes one
HTML file per module at `module_page_path`.  We record the write sequence as
`(path, module)` pairs — the bytes written for a module page are a function
of the module (and of job-wide data), so which write survives at a path is
determined by which module's write is last.  `apply_writes` folds the writes
into the resulting file system (each write replaces the current content at
its path). -/

def module_page_writes (st : CourseStructure) : List (String × Module) :=
  st.modules.flatMap (fun sec =>
    sec.modules.map (fun m => (module_page_path sec.name m.name, m)))

def apply_writes (ws : List (String × Module)) : String → Option Module :=
  ws.foldl (fun fs w => fun q => if q = w.1 then some w.2 else fs q) (fun _ => none)


/-! ## Helper predicate for the sanitizer proofs

`DashRel a b` says that `a` and `b` are not both dashes; a list with
`Chain' DashRel` has no two adjacent dashes, which is the state of a string
after the second `re.sub` of `_sanitize_filename`. -/

def DashRel (a b : Char) : Prop := ¬(a = '-' ∧ b = '-')

instance : DecidableRel DashRel :=
  fun a b => inferInstanceAs (Decidable (¬(a = '-' ∧ b = '-')))

/-! ## Concrete example inputs used by the witnesses -/

/-- A children-shaped course document: one `"set"` child with one module
child, followed by one child of the unknown unit type `"video"`. -/
def exDoc : CourseDoc :=
  { course := some { id := "c", name := "Course", unitType := none, metadata := none }
    children :=
      [ { course := some { id := "s1", name := "Set", unitType := some "set", metadata := none }
          children := [⟨{ id := "m1", name := "M1", unitType := some "module", metadata := none }⟩] }
      , { course := some { id := "x", name := "W", unitType := some "video", metadata := none }
          children := [] } ]
    sets := none }

/-- A course structure with one section holding two modules whose distinct
display names sanitize to the same slug `"a-b"`. -/
def exStructure : CourseStructure :=
  { name := "Course"
    modules := [ { name := "Sec"
                   modules := [ { id := "1", name := "A b", files := [] }
                              , { id := "2", name := "A-b", files := [] } ] } ] }

end ServerKit
namespace ServerKit

theorem toNat_ofNat_valid {n : Nat} (h : n < 55296) : (Char.ofNat n).toNat = n := by
  rw [Char.ofNat, dif_pos (Or.inl h)]
  rfl

theorem isUpper_iff (c : Char) : c.isUpper = true ↔ 65 ≤ c.toNat ∧ c.toNat ≤ 90 := by
  simp [Char.isUpper, UInt32.le_def, BitVec.le_def, Char.toNat, UInt32.toNat, ge_iff_le]

theorem isLower_iff (c : Char) : c.isLower = true ↔ 97 ≤ c.toNat ∧ c.toNat ≤ 122 := by
  simp [Char.isLower, UInt32.le_def, BitVec.le_def, Char.toNat, UInt32.toNat, ge_iff_le]

theorem isDigit_iff (c : Char) : c.isDigit = true ↔ 48 ≤ c.toNat ∧ c.toNat ≤ 57 := by
  simp [Char.isDigit, UInt32.le_def, BitVec.le_def, Char.toNat, UInt32.toNat, ge_iff_le]

theorem char_eq_iff_toNat {c d : Char} : c = d ↔ c.toNat = d.toNat := by
  constructor
  · intro h; rw [h]
  · intro h
    have := Char.ofNat_toNat c
    rw [← Char.ofNat_toNat c, ← Char.ofNat_toNat d, h]

theorem toLower_def (c : Char) :
    c.toLower = if 65 ≤ c.toNat ∧ c.toNat ≤ 90 then Char.ofNat (c.toNat + 32) else c := by
  simp [Char.toLower, ge_iff_le]

end ServerKit
namespace ServerKit

theorem toLower_toNat_of_upper {c : Char} (h : 65 ≤ c.toNat ∧ c.toNat ≤ 90) :
    (c.toLower).toNat = c.toNat + 32 := by
  rw [toLower_def, if_pos h, toNat_ofNat_valid (by omega)]

theorem toLower_eq_self_of_not_upper {c : Char} (h : c.isUpper = false) : c.toLower = c := by
  rw [toLower_def, if_neg]
  intro hc
  rw [← isUpper_iff] at hc
  simp [h] at hc

theorem toLower_isUpper_false (c : Char) : (c.toLower).isUpper = false := by
  by_cases h : 65 ≤ c.toNat ∧ c.toNat ≤ 90
  · have := toLower_toNat_of_upper h
    rw [Bool.eq_false_iff]
    intro hu
    rw [isUpper_iff] at hu
    omega
  · rw [toLower_def, if_neg h, Bool.eq_false_iff]
    intro hu
    rw [isUpper_iff] at hu
    exact h hu

theorem toLower_dash_iff (c : Char) : c.toLower = '-' ↔ c = '-' := by
  by_cases h : 65 ≤ c.toNat ∧ c.toNat ≤ 90
  · have h2 := toLower_toNat_of_upper h
    constructor
    · intro he
      rw [char_eq_iff_toNat] at he
      simp at he
      omega
    · intro he
      rw [char_eq_iff_toNat] at he
      simp at he
      omega
  · rw [toLower_def, if_neg h]

theorem toLower_allowed {c : Char} (h : allowedChar c = true) :
    allowedChar c.toLower = true := by
  by_cases hu : 65 ≤ c.toNat ∧ c.toNat ≤ 90
  · have h2 := toLower_toNat_of_upper hu
    have : (c.toLower).isLower = true := by rw [isLower_iff]; omega
    simp [allowedChar, Char.isAlpha, this]
  · rw [toLower_def, if_neg hu]; exact h

end ServerKit
namespace ServerKit

theorem replaceRuns_allowed : ∀ l : List Char, ∀ x ∈ replaceRuns l, allowedChar x = true := by
  intro l
  induction l with
  | nil => simp [replaceRuns]
  | cons c rest ih =>
    cases rest with
    | nil =>
      by_cases h : allowedChar c = true
      · simp [replaceRuns, h]
      · simp [replaceRuns, h]; decide
    | cons d rest' =>
      by_cases h : allowedChar c = true
      · simp only [replaceRuns, if_pos h]
        intro x hx
        rcases List.mem_cons.mp hx with h1 | h1
        · rw [h1]; exact h
        · exact ih x h1
      · simp only [replaceRuns, if_neg h]
        by_cases h2 : allowedChar d = true
        · simp only [if_pos h2]
          intro x hx
          rcases List.mem_cons.mp hx with h1 | h1
          · rw [h1]; decide
          · exact ih x h1
        · simp only [if_neg h2]
          exact ih

theorem replaceRuns_of_allowed : ∀ l : List Char, (∀ c ∈ l, allowedChar c = true) →
    replaceRuns l = l := by
  intro l
  induction l with
  | nil => simp [replaceRuns]
  | cons c rest ih =>
    intro h
    cases rest with
    | nil => simp [replaceRuns, h c (by simp)]
    | cons d rest' =>
      have hc := h c (by simp)
      simp only [replaceRuns, if_pos hc]
      rw [ih (fun x hx => h x (List.mem_cons_of_mem c hx))]

theorem collapseDashes_mem : ∀ l : List Char, ∀ x ∈ collapseDashes l, x ∈ l := by
  intro l
  induction l with
  | nil => simp [collapseDashes]
  | cons c rest ih =>
    cases rest with
    | nil => simp [collapseDashes]
    | cons d rest' =>
      by_cases h : c = '-' ∧ d = '-'
      · simp only [collapseDashes, if_pos h]
        intro x hx
        exact List.mem_cons_of_mem c (ih x hx)
      · simp only [collapseDashes, if_neg h]
        intro x hx
        rcases List.mem_cons.mp hx with h1 | h1
        · rw [h1]; simp
        · exact List.mem_cons_of_mem c (ih x h1)

theorem collapseDashes_head : ∀ (rest : List Char) (c : Char),
    (collapseDashes (c :: rest)).head? = some (if c = '-' then '-' else c) := by
  intro rest
  induction rest with
  | nil =>
    intro c
    by_cases h : c = '-' <;> simp [collapseDashes, h]
  | cons d rest' ih =>
    intro c
    by_cases h : c = '-' ∧ d = '-'
    · simp only [collapseDashes, if_pos h]
      rw [ih d]
      simp [h.1, h.2]
    · simp only [collapseDashes, if_neg h]
      by_cases hc : c = '-' <;> simp [hc]

end ServerKit
namespace ServerKit

theorem collapseDashes_chain' : ∀ l : List Char, (collapseDashes l).Chain' DashRel := by
  intro l
  induction l with
  | nil => simp [collapseDashes]
  | cons c rest ih =>
    cases rest with
    | nil => simp [collapseDashes]
    | cons d rest' =>
      by_cases h : c = '-' ∧ d = '-'
      · simpa only [collapseDashes, if_pos h] using ih
      · simp only [collapseDashes, if_neg h]
        rw [List.chain'_cons']
        refine ⟨?_, ih⟩
        intro y hy
        rw [collapseDashes_head rest' d] at hy
        simp only [Option.mem_def, Option.some.injEq] at hy
        by_cases hd : d = '-'
        · subst hy
          simp only [if_pos hd]
          intro hcon
          exact h ⟨hcon.1, hd⟩
        · subst hy
          simp only [if_neg hd]
          intro hcon
          exact hd hcon.2

theorem collapseDashes_of_chain' : ∀ l : List Char, l.Chain' DashRel → collapseDashes l = l := by
  intro l
  induction l with
  | nil => simp [collapseDashes]
  | cons c rest ih =>
    intro h
    cases rest with
    | nil => simp [collapseDashes]
    | cons d rest' =>
      rw [List.chain'_cons] at h
      have h1 : ¬(c = '-' ∧ d = '-') := h.1
      simp only [collapseDashes, if_neg h1]
      rw [ih h.2]

theorem chain'_dropWhile {R : Char → Char → Prop} {p : Char → Bool} :
    ∀ l : List Char, l.Chain' R → (l.dropWhile p).Chain' R := by
  intro l
  induction l with
  | nil => simp
  | cons c rest ih =>
    intro h
    by_cases hp : p c = true
    · rw [List.dropWhile_cons_of_pos hp]
      exact ih h.tail
    · rw [List.dropWhile_cons_of_neg hp]
      exact h

theorem dropWhile_head? {p : Char → Bool} :
    ∀ l : List Char, ∀ x ∈ (l.dropWhile p).head?, p x = false := by
  intro l
  induction l with
  | nil => simp
  | cons c rest ih =>
    by_cases hp : p c = true
    · rw [List.dropWhile_cons_of_pos hp]
      exact ih
    · rw [List.dropWhile_cons_of_neg hp]
      intro x hx
      simp only [List.head?_cons, Option.mem_def, Option.some.injEq] at hx
      subst hx
      simpa using hp

theorem dropWhile_eq_self_of_head {p : Char → Bool} :
    ∀ l : List Char, (∀ x ∈ l.head?, p x = false) → l.dropWhile p = l := by
  intro l h
  cases l with
  | nil => simp
  | cons c rest =>
    have := h c (by simp)
    rw [List.dropWhile_cons_of_neg (by simp [this])]

end ServerKit
namespace ServerKit

theorem dashRel_symm {a b : Char} (h : DashRel a b) : DashRel b a :=
  fun hc => h ⟨hc.2, hc.1⟩

theorem stripDashes_mem : ∀ l : List Char, ∀ x ∈ stripDashes l, x ∈ l := by
  intro l x hx
  unfold stripDashes at hx
  rw [List.mem_reverse] at hx
  have h1 := (List.dropWhile_sublist (l := (l.dropWhile (· == '-')).reverse) (· == '-')).mem hx
  rw [List.mem_reverse] at h1
  exact (List.dropWhile_sublist (· == '-')).mem h1

theorem stripDashes_chain' {l : List Char} (h : l.Chain' DashRel) :
    (stripDashes l).Chain' DashRel := by
  unfold stripDashes
  rw [List.chain'_reverse]
  apply List.Chain'.imp (fun a b hr => dashRel_symm hr)
  apply chain'_dropWhile
  rw [List.chain'_reverse]
  apply List.Chain'.imp (fun a b hr => dashRel_symm hr)
  exact chain'_dropWhile l h

theorem getLast?_dropWhile_of_ne_nil {p : Char → Bool} {l : List Char}
    (h : l.dropWhile p ≠ []) : (l.dropWhile p).getLast? = l.getLast? := by
  conv_rhs => rw [← List.takeWhile_append_dropWhile (p := p) (l := l)]
  rw [List.getLast?_append]
  cases h2 : (l.dropWhile p).getLast? with
  | none => exact absurd (List.getLast?_eq_none_iff.mp h2) h
  | some b => simp

theorem stripDashes_head : ∀ l : List Char, ∀ x ∈ (stripDashes l).head?, x ≠ '-' := by
  intro l x hx
  unfold stripDashes at hx
  rw [List.head?_reverse] at hx
  by_cases hw : (l.dropWhile (· == '-')).reverse.dropWhile (· == '-') = []
  · rw [hw] at hx; simp at hx
  · rw [getLast?_dropWhile_of_ne_nil hw, List.getLast?_reverse] at hx
    have := dropWhile_head? (p := (· == '-')) l x hx
    simpa using this

theorem stripDashes_getLast : ∀ l : List Char, ∀ x ∈ (stripDashes l).getLast?, x ≠ '-' := by
  intro l x hx
  unfold stripDashes at hx
  rw [List.getLast?_reverse] at hx
  have := dropWhile_head? (p := (· == '-')) (l.dropWhile (· == '-')).reverse x hx
  simpa using this

theorem stripDashes_eq_self {l : List Char} (hh : ∀ x ∈ l.head?, x ≠ '-')
    (hl : ∀ x ∈ l.getLast?, x ≠ '-') : stripDashes l = l := by
  unfold stripDashes
  rw [dropWhile_eq_self_of_head l (fun x hx => by simpa using hh x hx)]
  rw [dropWhile_eq_self_of_head l.reverse
    (fun x hx => by rw [List.head?_reverse] at hx; simpa using hl x hx)]
  exact List.reverse_reverse l

end ServerKit
namespace ServerKit

theorem map_toLower_eq_self {l : List Char} (h : ∀ c ∈ l, c.isUpper = false) :
    l.map Char.toLower = l := by
  induction l with
  | nil => simp
  | cons c rest ih =>
    simp only [List.map_cons]
    rw [toLower_eq_self_of_not_upper (h c (by simp)),
      ih (fun x hx => h x (List.mem_cons_of_mem c hx))]

theorem sanitize_fixed {l : List Char}
    (hall : ∀ c ∈ l, allowedChar c = true)
    (hup : ∀ c ∈ l, c.isUpper = false)
    (hchain : l.Chain' DashRel)
    (hh : ∀ x ∈ l.head?, x ≠ '-')
    (hl : ∀ x ∈ l.getLast?, x ≠ '-')
    (hne : l ≠ []) :
    sanitize_filename (String.mk l) = String.mk l := by
  unfold sanitize_filename
  simp only
  rw [replaceRuns_of_allowed l hall, collapseDashes_of_chain' l hchain,
    stripDashes_eq_self hh hl]
  have hemp : l.isEmpty = false := by simp [List.isEmpty_iff, hne]
  rw [hemp]
  simp only [Bool.false_eq_true, if_false]
  rw [map_toLower_eq_self hup]

theorem sanitize_props (x : String) :
    (∀ c ∈ (sanitize_filename x).data, allowedChar c = true) ∧
    (∀ c ∈ (sanitize_filename x).data, c.isUpper = false) ∧
    ((sanitize_filename x).data.Chain' DashRel) ∧
    (∀ c ∈ (sanitize_filename x).data.head?, c ≠ '-') ∧
    (∀ c ∈ (sanitize_filename x).data.getLast?, c ≠ '-') ∧
    (sanitize_filename x).data ≠ [] := by
  unfold sanitize_filename
  simp only
  by_cases h : (stripDashes (collapseDashes (replaceRuns x.data))).isEmpty
  · rw [if_pos h]
    have huch : List.Chain' DashRel "untitled".data := by
      rw [show ("untitled" : String).data
        = ['u', 'n', 't', 'i', 't', 'l', 'e', 'd'] from rfl]
      simp only [List.chain'_cons, List.chain'_singleton, and_true]
      refine ⟨?_, ?_, ?_, ?_, ?_, ?_, ?_⟩ <;> decide
    exact ⟨by decide, by decide, huch, by decide, by decide, by decide⟩
  · rw [if_neg h]
    set s3 := stripDashes (collapseDashes (replaceRuns x.data)) with hs3
    have hmem : ∀ d ∈ s3, allowedChar d = true := by
      intro d hd
      rw [hs3] at hd
      exact replaceRuns_allowed x.data d
        (collapseDashes_mem _ d (stripDashes_mem _ d hd))
    have hchain3 : s3.Chain' DashRel := by
      rw [hs3]
      exact stripDashes_chain' (collapseDashes_chain' (replaceRuns x.data))
    refine ⟨?_, ?_, ?_, ?_, ?_, ?_⟩
    · intro c hc
      obtain ⟨d, hd, rfl⟩ := List.mem_map.mp hc
      exact toLower_allowed (hmem d hd)
    · intro c hc
      obtain ⟨d, hd, rfl⟩ := List.mem_map.mp hc
      exact toLower_isUpper_false d
    · show (s3.map Char.toLower).Chain' DashRel
      rw [List.chain'_map]
      apply List.Chain'.imp ?_ hchain3
      intro a b hr hcon
      exact hr ⟨(toLower_dash_iff a).mp hcon.1, (toLower_dash_iff b).mp hcon.2⟩
    · intro c hc
      show c ≠ '-'
      rw [show (String.mk (s3.map Char.toLower)).data = s3.map Char.toLower from rfl,
        List.head?_map] at hc
      cases hso : s3.head? with
      | none => rw [hso] at hc; simp at hc
      | some d =>
        rw [hso] at hc
        simp only [Option.map_some', Option.mem_def, Option.some.injEq] at hc
        subst hc
        rw [hs3] at hso
        have hd : d ≠ '-' := stripDashes_head _ d hso
        intro hcon
        exact hd ((toLower_dash_iff d).mp hcon)
    · intro c hc
      show c ≠ '-'
      rw [show (String.mk (s3.map Char.toLower)).data = s3.map Char.toLower from rfl,
        List.getLast?_map] at hc
      cases hso : s3.getLast? with
      | none => rw [hso] at hc; simp at hc
      | some d =>
        rw [hso] at hc
        simp only [Option.map_some', Option.mem_def, Option.some.injEq] at hc
        subst hc
        rw [hs3] at hso
        have hd : d ≠ '-' := stripDashes_getLast _ d hso
        intro hcon
        exact hd ((toLower_dash_iff d).mp hcon)
    · show (s3.map Char.toLower) ≠ []
      rw [Ne, List.map_eq_nil_iff]
      intro hnil
      rw [hnil] at h
      exact h rfl

/-- C6: the sanitizer is idempotent — for every input string `x`,
`slug(slug(x)) = slug(x)`. -/
theorem c6_sanitize_idempotent (x : String) :
    sanitize_filename (sanitize_filename x) = sanitize_filename x := by
  obtain ⟨hall, hup, hchain, hh, hl, hne⟩ := sanitize_props x
  have hfix := sanitize_fixed hall hup hchain hh hl hne
  have heta : String.mk (sanitize_filename x).data = sanitize_filename x := rfl
  rwa [heta] at hfix

end ServerKit
namespace ServerKit

theorem replaceRuns_all_dash : ∀ l : List Char,
    (∀ c ∈ l, c.isAlphanum = false ∧ c ≠ '.') → ∀ d ∈ replaceRuns l, d = '-' := by
  intro l
  induction l with
  | nil => simp [replaceRuns]
  | cons c rest ih =>
    intro h
    have hc := h c (by simp)
    have hcd : allowedChar c = true → c = '-' := by
      intro ha
      simp only [allowedChar, Bool.or_eq_true, beq_iff_eq] at ha
      rcases ha with ((ha | ha) | ha) | ha
      · have han : c.isAlphanum = true := by simp [Char.isAlphanum, ha]
        simp [hc.1] at han
      · have han : c.isAlphanum = true := by simp [Char.isAlphanum, ha]
        simp [hc.1] at han
      · exact ha
      · exact absurd ha hc.2
    cases rest with
    | nil =>
      by_cases ha : allowedChar c = true
      · simp only [replaceRuns, if_pos ha]
        intro d hd
        simp only [List.mem_singleton] at hd
        rw [hd]; exact hcd ha
      · simp only [replaceRuns, if_neg ha]
        simp
    | cons d rest' =>
      have ihr := ih (fun x hx => h x (List.mem_cons_of_mem c hx))
      by_cases ha : allowedChar c = true
      · simp only [replaceRuns, if_pos ha]
        intro e he
        rcases List.mem_cons.mp he with h1 | h1
        · rw [h1]; exact hcd ha
        · exact ihr e h1
      · simp only [replaceRuns, if_neg ha]
        by_cases hd : allowedChar d = true
        · simp only [if_pos hd]
          intro e he
          rcases List.mem_cons.mp he with h1 | h1
          · exact h1
          · exact ihr e h1
        · simp only [if_neg hd]
          exact ihr

theorem collapseDashes_all_dash : ∀ l : List Char, (∀ c ∈ l, c = '-') →
    collapseDashes l = if l.isEmpty then [] else ['-'] := by
  intro l
  induction l with
  | nil => simp [collapseDashes]
  | cons c rest ih =>
    intro h
    have hc := h c (by simp)
    cases rest with
    | nil => simp [collapseDashes, hc]
    | cons d rest' =>
      have hd := h d (by simp)
      simp only [collapseDashes]
      rw [if_pos (⟨hc, hd⟩ : c = '-' ∧ d = '-')]
      rw [ih (fun x hx => h x (List.mem_cons_of_mem c hx))]
      simp

theorem sanitize_untitled {x : String}
    (h : ∀ c ∈ x.data, c.isAlphanum = false ∧ c ≠ '.') :
    sanitize_filename x = "untitled" := by
  unfold sanitize_filename
  simp only
  have h1 := replaceRuns_all_dash x.data h
  rw [collapseDashes_all_dash _ h1]
  by_cases he : (replaceRuns x.data).isEmpty
  · rw [if_pos he]
    rw [show stripDashes [] = [] from rfl]
    rfl
  · rw [if_neg he]
    rw [show stripDashes ['-'] = [] from rfl]
    rfl

theorem sanitize_ne_empty (x : String) : sanitize_filename x ≠ "" := by
  have h := (sanitize_props x).2.2.2.2.2
  intro hc
  rw [hc] at h
  exact h rfl

end ServerKit
namespace ServerKit

theorem mem_data_module_page_path (s m : String) :
    '/' ∈ (module_page_path s m).data := by
  unfold module_page_path
  rw [String.data_append, String.data_append, String.data_append]
  refine List.mem_append.mpr (Or.inl ?_)
  refine List.mem_append.mpr (Or.inl ?_)
  refine List.mem_append.mpr (Or.inr ?_)
  simp [show ("/" : String).data = ['/'] from rfl]

theorem nav_is_nested_module_page (s m : String) :
    nav_is_nested (module_page_path s m) = true := by
  unfold nav_is_nested
  have h1 : (module_page_path s m).data.contains '/' = true := by
    rw [List.contains]
    exact List.elem_iff.mpr (mem_data_module_page_path s m)
  have h2 : (module_page_path s m != "index.html") = true := by
    rw [bne_iff_ne]
    intro he
    have := mem_data_module_page_path s m
    rw [he] at this
    simp [show ("index.html" : String).data
      = ['i', 'n', 'd', 'e', 'x', '.', 'h', 't', 'm', 'l'] from rfl] at this
  rw [h1, h2, Bool.and_self]

/-- C5: for a module page at nesting depth 1 (path
`<section-slug>/<module-slug>.html`) the rendered index link is exactly
`"../index.html"`, and on the index page the link to that same module is
exactly the module page path itself, with nothing prepended. -/
theorem c5_navigation_links (s m : String) :
    nav_root_link (module_page_path s m) = "../index.html" ∧
    nav_module_link "index.html" (module_page_path s m) = module_page_path s m := by
  constructor
  · unfold nav_root_link
    rw [nav_is_nested_module_page s m]
    simp
  · unfold nav_module_link
    rw [show nav_is_nested "index.html" = false from rfl]
    simp

theorem str_append_left_inj (p : String) {a b : String} : p ++ a = p ++ b ↔ a = b := by
  constructor
  · intro h
    have hd := congrArg String.data h
    rw [String.data_append, String.data_append] at hd
    exact String.ext (List.append_cancel_left hd)
  · intro h; rw [h]

/-- C8 (amended): two URLs resolved with the same module name get distinct
local filenames whenever the basenames of their URL paths differ.  (The
original claim — any two distinct URLs give distinct filenames — fails:
the filename only uses the final path segment of the URL, so distinct URLs
sharing a basename collide; see the counterexample.) -/
theorem c8_amended (u1 u2 m : String)
    (h : basename (urlparse_path u1) ≠ basename (urlparse_path u2)) :
    media_filename u1 m ≠ media_filename u2 m := by
  intro he
  unfold media_filename at he
  exact h ((str_append_left_inj (sanitize_filename m ++ "_")).mp he)

/-- C1 (amended): resolving the same URL twice with the *same* module name,
starting from a state whose media directory lacks the derived filename and
with a succeeding fetch, performs exactly one network fetch: after both
resolves the fetch log has grown by exactly that one URL.  (The original
claim — at most one fetch per URL regardless of module names — fails because
the cache key includes the module slug; see the counterexample.) -/
theorem c1_amended (fetch : String → FetchResult) (u m : String) (st : MediaState)
    (hsucc : fetch u = FetchResult.success)
    (hfresh : st.files.contains (media_filename u m) = false) :
    (download_media fetch u m (download_media fetch u m st).2).2.fetches
      = st.fetches ++ [u] := by
  have h1 : download_media fetch u m st
      = (some ("media/" ++ media_filename u m),
         ⟨media_filename u m :: st.files, st.fetches ++ [u]⟩) := by
    unfold download_media
    simp only [hfresh, Bool.false_eq_true, if_false, hsucc]
  rw [h1]
  unfold download_media
  simp only
  rw [if_pos (by simp : (media_filename u m :: st.files).contains (media_filename u m) = true)]

/-- C2 (amended): `_download_media` returns `null` exactly when the fetch
raises an exception (and the file is not already cached); on a non-success
HTTP status it still returns the local relative path while writing no file.
(The original claim — `null` on *any* fetch failure including a non-success
status — fails; see the counterexample.) -/
theorem c2_amended (fetch : String → FetchResult) (url mn : String) (st : MediaState) :
    ((download_media fetch url mn st).1 = none ↔
      (st.files.contains (media_filename url mn) = false ∧ fetch url = FetchResult.exn)) ∧
    (fetch url = FetchResult.httpFailure →
      st.files.contains (media_filename url mn) = false →
      (download_media fetch url mn st).1 = some ("media/" ++ media_filename url mn) ∧
      (download_media fetch url mn st).2.files = st.files) := by
  constructor
  · unfold download_media
    by_cases hc : st.files.contains (media_filename url mn) = true
    · rw [if_pos hc]
      constructor
      · intro hcon
        exact absurd hcon (by simp)
      · intro hcon
        rw [hc] at hcon
        exact absurd hcon.1 (by simp)
    · rw [if_neg hc]
      have hc' : st.files.contains (media_filename url mn) = false :=
        Bool.eq_false_iff.mpr hc
      cases hfu : fetch url with
      | success =>
        constructor
        · intro hcon; exact absurd hcon (by simp)
        · intro hcon; exact absurd hcon.2 (by simp)
      | httpFailure =>
        constructor
        · intro hcon; exact absurd hcon (by simp)
        · intro hcon; exact absurd hcon.2 (by simp)
      | exn => exact ⟨fun _ => ⟨hc', rfl⟩, fun _ => rfl⟩
  · intro hf hc
    unfold download_media
    rw [if_neg (by rw [hc]; exact Bool.false_ne_true), hf]
    exact ⟨rfl, rfl⟩

end ServerKit
namespace ServerKit

/-- C3 (amended): in the file downloader, a raised exception at either
network step produces exactly one log entry naming the file; absorbed
failures that raise no exception — a non-200 signed-URL status, a missing
download URL, a non-200 byte-fetch status — produce no log entry at all
(and `_download_media` never logs).  (The original claim — every absorbed
error yields exactly one log entry — fails; see the counterexample.) -/
theorem c3_amended (fb : StepResult Nat) (fn e u : String) (status s2 : Nat)
    (payload : Option String) :
    (download_one_file (.raise e) fb fn
      = (false, ["Failed to download " ++ fn ++ ": " ++ e])) ∧
    (u ≠ "" → download_one_file (.ret (200, some u)) (.raise e) fn
      = (false, ["Failed to download " ++ fn ++ ": " ++ e])) ∧
    (status ≠ 200 → download_one_file (.ret (status, payload)) fb fn = (false, [])) ∧
    (u ≠ "" → s2 ≠ 200 →
      download_one_file (.ret (200, some u)) (.ret s2) fn = (false, [])) ∧
    (download_one_file (.ret (200, none)) fb fn = (false, [])) := by
  refine ⟨rfl, ?_, ?_, ?_, rfl⟩
  · intro hu
    unfold download_one_file
    simp only [if_pos rfl, pyTruthy]
    rw [if_pos (by simpa using hu)]
  · intro hs
    simp only [download_one_file, if_neg hs]
    rfl
  · intro hu hs
    unfold download_one_file
    simp only [if_pos rfl, pyTruthy]
    rw [if_pos (by simpa using hu), if_neg hs]

theorem buildChildren_eq_filterMap : ∀ l : List ChildNode,
    buildChildren l = l.filterMap childToSection := by
  intro l
  induction l with
  | nil => rfl
  | cons child rest ih =>
    cases hcc : child.course with
    | none =>
      simp only [buildChildren, childToSection, hcc, List.filterMap_cons, ih]
    | some cd =>
      by_cases h1 : cd.unitType = some "set"
      · simp only [buildChildren, childToSection, hcc, if_pos h1, List.filterMap_cons, ih]
      · by_cases h2 : cd.unitType = some "module"
        · simp only [buildChildren, childToSection, hcc, if_neg h1, if_pos h2,
            List.filterMap_cons, ih]
        · simp only [buildChildren, childToSection, hcc, if_neg h1, if_neg h2,
            List.filterMap_cons, ih]

/-- C4: for every children-shaped course document (non-empty `children`),
the structure builder emits exactly the per-child sections in source order:
a `"set"` child becomes a section whose children become its modules, a
`"module"` child becomes a synthetic single-module section named
`"General"`, and a child of any other unit type is skipped (mapped to
`none`) without an error. -/
theorem c4_structure_builder (d : CourseDoc) (h : d.children ≠ []) :
    (build_course_structure d).modules = d.children.filterMap childToSection ∧
    (∀ child : ChildNode, childUnitType child ≠ some "set" →
      childUnitType child ≠ some "module" → childToSection child = none) := by
  constructor
  · unfold build_course_structure
    have hemp : d.children.isEmpty = false := by simp [List.isEmpty_iff, h]
    rw [hemp]
    simp only [Bool.false_and, Bool.false_eq_true, if_false]
    exact buildChildren_eq_filterMap d.children
  · intro child h1 h2
    unfold childToSection
    cases hcc : child.course with
    | none => rfl
    | some cd =>
      have hut : childUnitType child = cd.unitType := by
        unfold childUnitType
        rw [hcc]
        rfl
      simp only
      rw [if_neg (fun hh => h1 (by rw [hut, hh])),
        if_neg (fun hh => h2 (by rw [hut, hh]))]

end ServerKit
namespace ServerKit

theorem pyOrStr_of_truthy {a : Option String} (h : pyTruthy a = true) (b c : String) :
    pyOrStr a b = pyOrStr a c := by
  cases a with
  | none => simp [pyTruthy] at h
  | some s =>
    have hs : s ≠ "" := by simpa [pyTruthy] using h
    simp [pyOrStr, hs]

theorem str_ne_self_append_bin (b : String) : b ≠ b ++ ".bin" := by
  intro he
  have hd := congrArg String.data he
  rw [String.data_append] at hd
  have hlen := congrArg List.length hd
  rw [List.length_append] at hlen
  rw [show (".bin" : String).data.length = 4 from rfl] at hlen
  omega

theorem href_eq_iff (s m b d : String) :
    ("../downloads/" ++ s ++ "/" ++ m ++ "/" ++ b
      = "../" ++ ("downloads/" ++ s ++ "/" ++ m ++ "/" ++ d)) ↔ b = d := by
  constructor
  · intro he
    apply String.ext
    have hd := congrArg String.data he
    simp only [String.data_append] at hd
    rw [show ['.', '.', '/', 'd', 'o', 'w', 'n', 'l', 'o', 'a', 'd', 's', '/']
      = ['.', '.', '/'] ++ ['d', 'o', 'w', 'n', 'l', 'o', 'a', 'd', 's', '/'] from rfl] at hd
    simp only [List.append_assoc] at hd
    exact List.append_cancel_left (List.append_cancel_left (List.append_cancel_left
      (List.append_cancel_left (List.append_cancel_left (List.append_cancel_left hd)))))
  · intro he
    rw [he]
    apply String.ext
    simp only [String.data_append]
    rw [show ['.', '.', '/', 'd', 'o', 'w', 'n', 'l', 'o', 'a', 'd', 's', '/']
      = ['.', '.', '/'] ++ ['d', 'o', 'w', 'n', 'l', 'o', 'a', 'd', 's', '/'] from rfl]
    simp only [List.append_assoc]

theorem href_bin_eq (s m b : String) :
    "../" ++ ("downloads/" ++ s ++ "/" ++ m ++ "/" ++ (b ++ ".bin"))
      = ("../downloads/" ++ s ++ "/" ++ m ++ "/" ++ b) ++ ".bin" := by
  apply String.ext
  simp only [String.data_append]
  rw [show ['.', '.', '/', 'd', 'o', 'w', 'n', 'l', 'o', 'a', 'd', 's', '/']
    = ['.', '.', '/'] ++ ['d', 'o', 'w', 'n', 'l', 'o', 'a', 'd', 's', '/'] from rfl]
  simp only [List.append_assoc]

/-- C9 (amended): for a file reference whose `name` field is present and
non-empty, the attachment link resolved from the module page equals the
downloader-stored path exactly when the sanitized name contains a dot, and
when it does not, the stored path is the link target with `".bin"`
appended.  (The original claim — stated for every file reference with a
non-empty `file_id` — fails when `name` is absent: the link falls back to
`"file"` while the downloader falls back to `title`/`file_<id>`; see the
counterexample.) -/
theorem c9_amended (s m : String) (f : FileInfo) (h : pyTruthy f.name = true) :
    (attachment_href s m f = "../" ++ stored_relpath s m f ↔
      (link_fname f).data.contains '.' = true) ∧
    ((link_fname f).data.contains '.' = false →
      "../" ++ stored_relpath s m f = attachment_href s m f ++ ".bin") := by
  have hbase : downloader_fname f
      = (if (link_fname f).data.contains '.' = true then link_fname f
         else link_fname f ++ ".bin") := by
    unfold downloader_fname link_fname
    rw [pyOrStr_of_truthy h (pyOrStr f.title ("file_" ++ f.file_id.getD "")) "file"]
  constructor
  · unfold attachment_href stored_relpath
    rw [hbase]
    by_cases hdot : (link_fname f).data.contains '.' = true
    · rw [if_pos hdot, href_eq_iff]
      exact iff_of_true rfl hdot
    · rw [if_neg hdot, href_eq_iff]
      exact iff_of_false (str_ne_self_append_bin _) hdot
  · intro hdot
    unfold attachment_href stored_relpath
    rw [hbase, if_neg (by rw [hdot]; exact Bool.false_ne_true)]
    exact href_bin_eq (sanitize_filename s) (sanitize_filename m) (link_fname f)

end ServerKit
namespace ServerKit

theorem apply_writes_foldl (ws : List (String × Module)) :
    ∀ (acc : String → Option Module) (p : String),
    ws.foldl (fun fs w => fun q => if q = w.1 then some w.2 else fs q) acc p
      = (((ws.filter (fun w => w.1 == p)).getLast?).map Prod.snd).or (acc p) := by
  induction ws with
  | nil => intro acc p; simp
  | cons w rest ih =>
    intro acc p
    rw [List.foldl_cons, ih]
    by_cases hw : w.1 = p
    · subst hw
      simp only [List.filter_cons, beq_self_eq_true, if_true, List.getLast?_cons, if_pos rfl]
      cases hfr : (rest.filter (fun x => x.1 == w.1)).getLast? with
      | none => simp [hfr]
      | some v => simp [hfr]
    · have hbeq : (w.1 == p) = false := by simp [hw]
      simp only [List.filter_cons, hbeq, Bool.false_eq_true, if_false]
      rw [if_neg (fun hh => hw hh.symm)]

/-- C10: module page output paths are keyed only by the sanitized section
and module names, so two modules of one section with equal slugs get the
identical path; folding the write sequence shows the content that survives
at any path is the last write to it (later module overwrites earlier), and
a path holds a file exactly when some module write targets it — one file
per distinct (section-slug, module-slug) pair. -/
theorem c10_module_page_overwrite (st : CourseStructure) (sec : Section)
    (m1 m2 : Module) (p : String)
    (h : sanitize_filename m1.name = sanitize_filename m2.name) :
    module_page_path sec.name m1.name = module_page_path sec.name m2.name ∧
    apply_writes (module_page_writes st) p
      = (((module_page_writes st).filter (fun w => w.1 == p)).getLast?).map Prod.snd ∧
    (apply_writes (module_page_writes st) p ≠ none ↔
      p ∈ (module_page_writes st).map Prod.fst) := by
  have hmain : apply_writes (module_page_writes st) p
      = (((module_page_writes st).filter (fun w => w.1 == p)).getLast?).map Prod.snd := by
    unfold apply_writes
    rw [apply_writes_foldl]
    exact Option.or_none
  refine ⟨?_, hmain, ?_⟩
  · unfold module_page_path
    rw [h]
  · rw [hmain]
    cases hfr : ((module_page_writes st).filter (fun w => w.1 == p)).getLast? with
    | none =>
      have hnil := List.getLast?_eq_none_iff.mp hfr
      rw [List.filter_eq_nil_iff] at hnil
      simp only [Option.map_none', ne_eq, not_true_eq_false, false_iff]
      intro hmem
      obtain ⟨w, hw, hweq⟩ := List.mem_map.mp hmem
      exact hnil w hw (by simp [hweq])
    | some v =>
      have hvmem : v ∈ (module_page_writes st).filter (fun w => w.1 == p) :=
        List.mem_of_getLast?_eq_some hfr
      rw [List.mem_filter] at hvmem
      simp only [Option.map_some', ne_eq, Option.some_ne_none, not_false_eq_true, true_iff]
      exact List.mem_map.mpr ⟨v, hvmem.1, by simpa using hvmem.2⟩

end ServerKit
namespace ServerKit

/-- C7 (amended): the sanitizer never returns the empty string, and every
input all of whose characters are neither alphanumeric nor `'.'` maps to the
fixed fallback token `"untitled"`.  (The original claim — every input of only
non-alphanumeric characters maps to the fallback — fails on inputs containing
`'.'`, which the character class of the first `re.sub` keeps.) -/
theorem c7_sanitize_fallback (x : String) :
    sanitize_filename x ≠ "" ∧
    ((∀ c ∈ x.data, c.isAlphanum = false ∧ c ≠ '.') → sanitize_filename x = "untitled") :=
  ⟨sanitize_ne_empty x, fun h => sanitize_untitled h⟩

/-- C7 counterexample: the input `"."` consists only of non-alphanumeric
characters, yet `_sanitize_filename` returns `"."`, not the fallback token. -/
theorem c7_counterexample :
    (∀ c ∈ ("." : String).data, c.isAlphanum = false) ∧
    sanitize_filename "." = "." ∧
    sanitize_filename "." ≠ "untitled" := by
  refine ⟨by decide, by decide, by decide⟩

/-- C7 witness: at the concrete input `"@#"` the fallback hypothesis holds
and both conclusions of the amended claim evaluate. -/
theorem c7_witness :
    sanitize_filename "@#" ≠ "" ∧ sanitize_filename "@#" = "untitled" :=
  ⟨(c7_sanitize_fallback "@#").1, (c7_sanitize_fallback "@#").2 (by decide)⟩

/-- C1 counterexample: the same media URL resolved under two different module
names is network-fetched twice in one job — the cache key is
`<module-slug>_<url-basename>`, not the URL, so the download dedup does not
hold "regardless of which module names are passed". -/
theorem c1_counterexample :
    (download_media (fun _ => FetchResult.success)
        "https://assets.skool.com/a/img.png" "Mod B"
        ((download_media (fun _ => FetchResult.success)
          "https://assets.skool.com/a/img.png" "Mod A" ⟨[], []⟩).2)).2.fetches
      = ["https://assets.skool.com/a/img.png", "https://assets.skool.com/a/img.png"] := by
  decide

/-- C1 witness: with the same module name, a fresh cache and a succeeding
fetch, two resolves of the same URL perform exactly one network fetch. -/
theorem c1_witness :
    (download_media (fun _ => FetchResult.success)
        "https://assets.skool.com/a/img.png" "Mod"
        ((download_media (fun _ => FetchResult.success)
          "https://assets.skool.com/a/img.png" "Mod"
          ⟨[], []⟩).2)).2.fetches
      = ([] : List String) ++ ["https://assets.skool.com/a/img.png"] :=
  c1_amended (fun _ => FetchResult.success)
    "https://assets.skool.com/a/img.png" "Mod" ⟨[], []⟩ rfl (by decide)

/-- C2 counterexample: on a non-success HTTP status (no exception raised),
`_download_media` still returns the local relative path — the embedded image
reference is rewritten to a local file that was never written, not left
unrewritten. -/
theorem c2_counterexample :
    (download_media (fun _ => FetchResult.httpFailure)
        "https://assets.skool.com/a/img.png" "Mod" ⟨[], []⟩).1
      = some "media/mod_img.png" := by
  decide

/-- C2 witness: the amended claim at a concrete uncached URL whose fetch
returns a non-success status: the path is still returned and no file is
recorded. -/
theorem c2_witness :
    ((download_media (fun _ => FetchResult.httpFailure)
        "https://assets.skool.com/a/img.png" "Mod" ⟨[], []⟩).1 = none ↔
      ((⟨[], []⟩ : MediaState).files.contains
          (media_filename "https://assets.skool.com/a/img.png" "Mod") = false ∧
        (fun _ => FetchResult.httpFailure) "https://assets.skool.com/a/img.png"
          = FetchResult.exn)) ∧
    ((download_media (fun _ => FetchResult.httpFailure)
        "https://assets.skool.com/a/img.png" "Mod" ⟨[], []⟩).1
      = some ("media/" ++ media_filename "https://assets.skool.com/a/img.png" "Mod") ∧
     (download_media (fun _ => FetchResult.httpFailure)
        "https://assets.skool.com/a/img.png" "Mod" ⟨[], []⟩).2.files
      = (⟨[], []⟩ : MediaState).files) :=
  ⟨(c2_amended (fun _ => FetchResult.httpFailure)
      "https://assets.skool.com/a/img.png" "Mod" ⟨[], []⟩).1,
   (c2_amended (fun _ => FetchResult.httpFailure)
      "https://assets.skool.com/a/img.png" "Mod" ⟨[], []⟩).2 rfl rfl⟩

/-- C3 counterexample: a failed signed-URL resolution (HTTP 500, no download
URL) is absorbed with zero log entries — an absorbed error that is silent,
contradicting "every absorbed error produces exactly one log entry". -/
theorem c3_counterexample :
    download_one_file (.ret (500, none)) (.ret 200) "guide.pdf" = (false, []) := by
  decide

/-- C3 witness: the amended claim instantiated — a raised exception logs
exactly one entry, while non-200 statuses and a missing URL log nothing. -/
theorem c3_witness :
    (download_one_file (.raise "boom") (.ret 200) "guide.pdf"
      = (false, ["Failed to download " ++ "guide.pdf" ++ ": " ++ "boom"])) ∧
    (download_one_file (.ret (200, some "http://x")) (.raise "boom") "guide.pdf"
      = (false, ["Failed to download " ++ "guide.pdf" ++ ": " ++ "boom"])) ∧
    (download_one_file (.ret (500, none)) (.ret 200) "guide.pdf" = (false, [])) ∧
    (download_one_file (.ret (200, some "http://x")) (.ret 404) "guide.pdf"
      = (false, [])) ∧
    (download_one_file (.ret (200, none)) (.ret 200) "guide.pdf" = (false, [])) := by
  have h := c3_amended (.ret 200) "guide.pdf" "boom" "http://x" 500 404 none
  exact ⟨h.1, h.2.1 (by decide), h.2.2.1 (by decide),
    h.2.2.2.1 (by decide) (by decide), h.2.2.2.2⟩

/-- C4 witness: the structure-builder theorem at a concrete children-shaped
document with one set child and one unknown-type child; the unknown child is
skipped. -/
theorem c4_witness :
    (build_course_structure exDoc).modules = exDoc.children.filterMap childToSection ∧
    childToSection
      { course := some { id := "x", name := "W", unitType := some "video", metadata := none }
        children := [] } = none :=
  ⟨(c4_structure_builder exDoc (by decide)).1,
   (c4_structure_builder exDoc (by decide)).2
     { course := some { id := "x", name := "W", unitType := some "video", metadata := none }
       children := [] } (by decide) (by decide)⟩

/-- C8 counterexample: two distinct media URLs with the same final path
segment and the same module name map to the same local filename. -/
theorem c8_counterexample :
    ("https://assets.skool.com/a/img.png" : String)
      ≠ "https://assets.skool.com/b/img.png" ∧
    media_filename "https://assets.skool.com/a/img.png" "Lesson"
      = media_filename "https://assets.skool.com/b/img.png" "Lesson" := by
  refine ⟨by decide, by decide⟩

/-- C8 witness: two URLs with distinct basenames get distinct filenames. -/
theorem c8_witness :
    media_filename "https://assets.skool.com/a/a.png" "Mod"
      ≠ media_filename "https://assets.skool.com/a/b.png" "Mod" :=
  c8_amended "https://assets.skool.com/a/a.png" "https://assets.skool.com/a/b.png"
    "Mod" (by decide)

/-- C9 counterexample: for a file reference with no `name` but a `title`
`"a.b"`, the downloader-side sanitized name contains a dot, yet the rendered
link target differs from the stored path (link falls back to `"file"`, the
downloader to the title), and the stored name is not the link name with
`".bin"` appended. -/
theorem c9_counterexample :
    (downloader_fname ⟨some "7", none, some "a.b"⟩).data.contains '.' = true ∧
    attachment_href "S" "M" ⟨some "7", none, some "a.b"⟩
      ≠ "../" ++ stored_relpath "S" "M" ⟨some "7", none, some "a.b"⟩ ∧
    downloader_fname ⟨some "7", none, some "a.b"⟩
      ≠ link_fname ⟨some "7", none, some "a.b"⟩ ++ ".bin" := by
  refine ⟨by decide, by decide, by decide⟩

/-- C9 witness: the amended claim at two concrete named file references —
one whose name carries an extension (link equals stored path) and one
without (stored path is the link target with `".bin"` appended). -/
theorem c9_witness :
    (attachment_href "Sec" "Mod" ⟨some "1", some "notes.pdf", none⟩
        = "../" ++ stored_relpath "Sec" "Mod" ⟨some "1", some "notes.pdf", none⟩ ↔
      (link_fname ⟨some "1", some "notes.pdf", none⟩).data.contains '.' = true) ∧
    ("../" ++ stored_relpath "Sec" "Mod" ⟨some "2", some "notes", none⟩
        = attachment_href "Sec" "Mod" ⟨some "2", some "notes", none⟩ ++ ".bin") :=
  ⟨(c9_amended "Sec" "Mod" ⟨some "1", some "notes.pdf", none⟩ (by decide)).1,
   (c9_amended "Sec" "Mod" ⟨some "2", some "notes", none⟩ (by decide)).2 (by decide)⟩

/-- C10 witness: the overwrite theorem at a concrete structure whose single
section holds two modules with display names `"A b"` and `"A-b"`, both
sanitizing to `"a-b"`; their page paths coincide. -/
theorem c10_witness :
    module_page_path "Sec" "A b" = module_page_path "Sec" "A-b" ∧
    apply_writes (module_page_writes exStructure) "sec/a-b.html"
      = (((module_page_writes exStructure).filter
          (fun w => w.1 == "sec/a-b.html")).getLast?).map Prod.snd ∧
    (apply_writes (module_page_writes exStructure) "sec/a-b.html" ≠ none ↔
      "sec/a-b.html" ∈ (module_page_writes exStructure).map Prod.fst) :=
  c10_module_page_overwrite exStructure ⟨"Sec", []⟩
    ⟨"1", "A b", []⟩ ⟨"2", "A-b", []⟩ "sec/a-b.html" (by decide)

end ServerKit
